import Mathlib

/-!
# Verification of the pi-conversation-analyzer core

Shallow embedding of the classification-response reconciliation / repair
subsystem and the incremental-session scheduler of the repository:

* `src/classifiers/message_classifier.py` (`_coerce_results`)
* `src/openai_client.py` (`_robust_json_parse`, `classify_text`,
  `_repair_json_with_model`)
* `src/db.py` (`fetch_sessions_to_process`, `upsert_session_classification`)
* `src/pipeline.py` (the `limit` truncation and the session-watermark
  persistence step of `run_pipeline`)

Python values flowing through `_coerce_results` are JSON-shaped (they come
from `json.loads` or the model-repair path), so they are modelled by the
inductive `JVal`.  Python `float` is modelled by `ℚ` (exact; rounding is
irrelevant to every property proved here).  Exceptions are modelled by
`Except PyErr`.
-/

/-- Kind of Python exception escaping a modelled operation. -/
inductive PyErr where
  | typeError
  | valueError
  | attributeError
  | jsonDecodeError
deriving DecidableEq, Repr

/-- JSON-shaped Python value (`None`, `bool`, `int`, `float`, `str`,
`list`, `dict`).  Dicts are insertion-ordered association lists with
string keys, as produced by `json.loads`. -/
inductive JVal where
  | null
  | bool (b : Bool)
  | int (n : Int)
  | num (q : ℚ)
  | str (s : String)
  | arr (xs : List JVal)
  | obj (kvs : List (String × JVal))

/-- Python truthiness (`bool(v)`) of a JSON-shaped value. -/
def pyTruthy : JVal → Bool
  | JVal.null => false
  | JVal.bool b => b
  | JVal.int n => n != 0
  | JVal.num q => q != 0
  | JVal.str s => s != ""
  | JVal.arr xs => !xs.isEmpty
  | JVal.obj kvs => !kvs.isEmpty

/-- `d.get(k)`: dictionary lookup returning `None` when the key is absent.
A value that is absent and a value that is `None` behave identically at
every use site modelled here. -/
def jGetD (kvs : List (String × JVal)) (k : String) : JVal :=
  match kvs.lookup k with
  | none => JVal.null
  | some v => v

/-- Parse a decimal digit. -/
def digitVal (c : Char) : Option Nat :=
  if c.isDigit then some (c.toNat - 48) else none

/-- Parse a non-empty run of decimal digits into a natural number,
accumulating left-to-right. -/
def parseDigits : List Char → Nat → Option Nat
  | [], _ => none
  | [c], acc => (digitVal c).map (fun d => acc * 10 + d)
  | c :: rest, acc =>
    match digitVal c with
    | none => none
    | some d => parseDigits rest (acc * 10 + d)

/-- Model of Python `int(s)` on strings: optional sign followed by digits.
(Surrounding whitespace and underscore separators accepted by CPython are
outside the modelled fragment; no relevant input uses them.) -/
def parseIntStr (s : String) : Option Int :=
  match s.data with
  | '-' :: rest => (parseDigits rest 0).map (fun n => -(n : Int))
  | '+' :: rest => (parseDigits rest 0).map (fun n => (n : Int))
  | cs => (parseDigits cs 0).map (fun n => (n : Int))

/-- Model of Python `int(v)` (`TypeError`/`ValueError` collapse to `none`;
`_coerce_results` catches every exception at its only call site).
`int` truncates floats toward zero; `bool` is an `int` subclass. -/
def pyInt : JVal → Option Int
  | JVal.int n => some n
  | JVal.num q => some (if q < 0 then -((-q).floor) else q.floor)
  | JVal.bool b => some (if b then 1 else 0)
  | JVal.str s => parseIntStr s
  | _ => none

/-- Digits of an (optional) fractional part: returns the value scaled as a
numerator together with the power-of-ten denominator. -/
def parseFracDigits : List Char → Nat → Nat → Option (Nat × Nat)
  | [], acc, den => if den = 1 then none else some (acc, den)
  | c :: rest, acc, den =>
    match digitVal c with
    | none => none
    | some d => parseFracDigits rest (acc * 10 + d) (den * 10)

/-- Unsigned decimal: digits, optionally followed by `.` and more digits.
Accepts `1`, `1.`, `1.5`, `.5` like Python `float`. -/
def parseUnsignedFloat (cs : List Char) : Option ℚ :=
  match cs.span (fun c => c.isDigit) with
  | (intPart, rest) =>
    match rest with
    | [] =>
      if intPart.isEmpty then none
      else (parseDigits intPart 0).map (fun n => (n : ℚ))
    | '.' :: frac =>
      if intPart.isEmpty ∧ frac.isEmpty then none
      else
        let ip := (parseDigits intPart 0).getD 0
        if frac.isEmpty then
          if intPart.isEmpty then none else some (ip : ℚ)
        else
          (parseFracDigits frac 0 1).map
            (fun p => (ip : ℚ) + (p.1 : ℚ) / (p.2 : ℚ))
    | _ => none

/-- Model of Python `float(s)` on strings: optional sign and a decimal
literal.  (Exponent forms, `inf`/`nan` and surrounding whitespace are
outside the modelled fragment; no relevant input uses them.) -/
def parseFloatStr (s : String) : Option ℚ :=
  match s.data with
  | '-' :: rest => (parseUnsignedFloat rest).map (fun q => -q)
  | '+' :: rest => parseUnsignedFloat rest
  | cs => parseUnsignedFloat cs

/-- Model of Python `float(v)`: numbers and numeric strings coerce, a
non-numeric string raises `ValueError`, every other type raises
`TypeError`.  This call is NOT protected by any `try` in
`_coerce_results`. -/
def pyFloatE : JVal → Except PyErr ℚ
  | JVal.int n => .ok (n : ℚ)
  | JVal.num q => .ok q
  | JVal.bool b => .ok (if b then 1 else 0)
  | JVal.str s =>
    match parseFloatStr s with
    | some q => .ok q
    | none => .error .valueError
  | _ => .error .typeError

/-- Model of Python iteration `for it in v`: lists yield their elements,
strings yield their characters (as one-character strings), dicts yield
their keys; other values raise `TypeError`. -/
def pyIter : JVal → Except PyErr (List JVal)
  | JVal.arr xs => .ok xs
  | JVal.str s => .ok (s.data.map (fun c => JVal.str (String.singleton c)))
  | JVal.obj kvs => .ok (kvs.map (fun kv => JVal.str kv.1))
  | _ => .error .typeError

instance {ε α : Type} [DecidableEq ε] [DecidableEq α] : DecidableEq (Except ε α) := fun a b =>
  match a, b with
  | .ok x, .ok y =>
    if h : x = y then .isTrue (by rw [h]) else .isFalse (by simp [h])
  | .error x, .error y =>
    if h : x = y then .isTrue (by rw [h]) else .isFalse (by simp [h])
  | .ok _, .error _ => .isFalse (by simp)
  | .error _, .ok _ => .isFalse (by simp)

/-- One coerced classification result
(`{"message_id": ..., "primary_category": ..., "scores": ...}`). -/
structure CResult where
  message_id : Int
  primary_category : String
  scores : List (String × ℚ)
deriving DecidableEq, Repr

/-- Python dict insertion: assigning an existing key updates the value in
place (keeping its position), a new key is appended. -/
def dinsert (k : String) (v : ℚ) : List (String × ℚ) → List (String × ℚ)
  | [] => [(k, v)]
  | (k', v') :: rest =>
    if k' = k then (k', v) :: rest else (k', v') :: dinsert k v rest

/-- Build a Python dict from an ordered list of key/value assignments
(later assignments to the same key win, first position kept). -/
def pyDict (kvs : List (String × ℚ)) : List (String × ℚ) :=
  kvs.foldl (fun d p => dinsert p.1 p.2 d) []

/-- `sum(scores.values())`: left-to-right sum of dict values. -/
def sumVals (l : List (String × ℚ)) : ℚ :=
  l.foldl (fun a p => a + p.2) 0

/-- `{c: 1.0/len(categories) for c in categories}`. -/
def uniformScores (cats : List String) : List (String × ℚ) :=
  pyDict (cats.map (fun c => (c, (1 : ℚ) / (cats.length : ℚ))))

/-- `float(scores.get(c, 0.0))` for one category: an absent category
defaults to `0.0`, a present value goes through `float(...)` which may
raise. -/
def scoreOne (raw : List (String × JVal)) (c : String) : Except PyErr ℚ :=
  match raw.lookup c with
  | none => .ok 0
  | some v => pyFloatE v

/-- The score dict comprehension
`{c: float(scores.get(c, 0.0)) for c in categories}`, evaluated left to
right; the first failing coercion raises. -/
def scoreList (raw : List (String × JVal)) : List String → Except PyErr (List (String × ℚ))
  | [] => .ok []
  | c :: cs =>
    match scoreOne raw c with
    | .error e => .error e
    | .ok q =>
      match scoreList raw cs with
      | .error e => .error e
      | .ok rest => .ok ((c, q) :: rest)

/-- `scores = it.get("scores") or {}` followed by the use of `.get` on the
result: a falsy value is replaced by the empty dict, a truthy non-dict
raises `AttributeError` at `scores.get`. -/
def getRawScores (kvs : List (String × JVal)) : Except PyErr (List (String × JVal)) :=
  let v := jGetD kvs "scores"
  if pyTruthy v then
    match v with
    | JVal.obj s => .ok s
    | _ => .error .attributeError
  else .ok []

/-- `primary if primary in categories else "other"`: only a string equal
to a supplied category survives; everything else becomes `"other"`. -/
def pyPrimary (v : JVal) (cats : List String) : String :=
  match v with
  | JVal.str s => if s ∈ cats then s else "other"
  | _ => "other"

/-- Normalisation of one kept candidate item (`_coerce_results` lines
58–70): fallback primary category, completed score vector, uniform
replacement of an all-zero vector. -/
def normItem (cats : List String) (mid : Int) (kvs : List (String × JVal)) :
    Except PyErr CResult :=
  let primaryRaw := jGetD kvs "primary_category"
  let primary := if pyTruthy primaryRaw then primaryRaw else JVal.str "other"
  match getRawScores kvs with
  | .error e => .error e
  | .ok raw =>
    match scoreList raw cats with
    | .error e => .error e
    | .ok kvsScores =>
      let scores0 := pyDict kvsScores
      let scores := if sumVals scores0 = 0 then uniformScores cats else scores0
      .ok { message_id := mid
            primary_category := pyPrimary primary cats
            scores := scores }

/-- One loop iteration of `_coerce_results` over `items`.  The `try`
protects exactly `int(it.get("message_id"))`: a non-dict item or an
unparseable id is skipped silently; a kept item's normalisation may
raise. -/
def stepItem (cats : List String) (eids : List Int)
    (acc : List (Int × CResult)) (it : JVal) : Except PyErr (List (Int × CResult)) :=
  match it with
  | JVal.obj kvs =>
    match pyInt (jGetD kvs "message_id") with
    | none => .ok acc
    | some mid =>
      if mid ∈ eids ∧ acc.lookup mid = none then
        match normItem cats mid kvs with
        | .error e => .error e
        | .ok r => .ok (acc ++ [(mid, r)])
      else .ok acc
  | _ => .ok acc

/-- The `by_id` accumulation loop of `_coerce_results`. -/
def buildById (cats : List String) (eids : List Int) :
    List JVal → List (Int × CResult) → Except PyErr (List (Int × CResult))
  | [], acc => .ok acc
  | it :: rest, acc =>
    match stepItem cats eids acc it with
    | .error e => .error e
    | .ok acc2 => buildById cats eids rest acc2

/-- The default result synthesised for an uncovered expected id
(`_coerce_results` lines 78–83). -/
def defaultResult (cats : List String) (mid : Int) : CResult :=
  { message_id := mid
    primary_category := "other"
    scores := uniformScores cats }

/-- Emission for one expected id: the kept candidate if any, else the
default. -/
def resultForId (cats : List String) (byId : List (Int × CResult)) (mid : Int) : CResult :=
  match byId.lookup mid with
  | some r => r
  | none => defaultResult cats mid

/-- `model_out.get("items", [])`: an absent key defaults to the empty
list; a present `None` stays `None` (and then fails iteration). -/
def jGetItems (mo : List (String × JVal)) : JVal :=
  match mo.lookup "items" with
  | none => JVal.arr []
  | some v => v

/-- Shallow embedding of `_coerce_results(model_out, categories,
expected_ids)` (`src/classifiers/message_classifier.py` lines 27–85).
A non-dict `model_out` raises `AttributeError` at `model_out.get`. -/
def coerceResults (modelOut : JVal) (cats : List String) (eids : List Int) :
    Except PyErr (List CResult) :=
  match modelOut with
  | JVal.obj mo =>
    match pyIter (jGetItems mo) with
    | .error e => .error e
    | .ok items =>
      match buildById cats eids items [] with
      | .error e => .error e
      | .ok byId => .ok (eids.map (resultForId cats byId))
  | _ => .error .attributeError

/-! ## Helper lemmas about the coercion engine -/

theorem lookup_mem {β : Type} (k : Int) (v : β) :
    ∀ l : List (Int × β), l.lookup k = some v → (k, v) ∈ l := by
  intro l
  induction l with
  | nil => intro h; simp [List.lookup] at h
  | cons p rest ih =>
    intro h
    rw [List.lookup] at h
    by_cases hk : k = p.1
    · subst hk
      simp at h
      subst h
      exact List.mem_cons_self _ _
    · have : (k == p.1) = false := beq_false_of_ne hk
      rw [this] at h
      exact List.mem_cons_of_mem _ (ih h)

theorem dinsert_not_mem (k : String) (v : ℚ) :
    ∀ l : List (String × ℚ), k ∉ l.map Prod.fst → dinsert k v l = l ++ [(k, v)] := by
  intro l
  induction l with
  | nil => intro _; rfl
  | cons p rest ih =>
    intro h
    simp only [List.map_cons, List.mem_cons, not_or] at h
    rw [dinsert, if_neg (fun he => h.1 he.symm), ih h.2]
    rfl

theorem foldl_dinsert :
    ∀ (l acc : List (String × ℚ)), ((acc ++ l).map Prod.fst).Nodup →
      List.foldl (fun d p => dinsert p.1 p.2 d) acc l = acc ++ l := by
  intro l
  induction l with
  | nil => intro acc _; simp
  | cons p rest ih =>
    intro acc h
    have hmap : ((acc ++ p :: rest).map Prod.fst) =
        (acc.map Prod.fst) ++ p.1 :: (rest.map Prod.fst) := by simp
    rw [hmap] at h
    have hnotin : p.1 ∉ acc.map Prod.fst := by
      intro hin
      exact (List.disjoint_of_nodup_append h) hin (List.mem_cons_self _ _)
    rw [List.foldl_cons, dinsert_not_mem p.1 p.2 acc hnotin]
    have h2 : (((acc ++ [p]) ++ rest).map Prod.fst).Nodup := by
      rw [List.append_assoc]
      simpa using h
    rw [ih (acc ++ [p]) h2, List.append_assoc]
    rfl

theorem pyDict_self (l : List (String × ℚ)) (h : (l.map Prod.fst).Nodup) :
    pyDict l = l := by
  have := foldl_dinsert l [] (by simpa using h)
  simpa [pyDict] using this

theorem map_pair_fst (cats : List String) (f : String → ℚ) :
    ((cats.map (fun c => (c, f c))).map Prod.fst) = cats := by
  rw [List.map_map]
  exact List.map_id'' (fun _ => rfl) cats

theorem uniformScores_eq (cats : List String) (h : cats.Nodup) :
    uniformScores cats = cats.map (fun c => (c, (1 : ℚ) / (cats.length : ℚ))) := by
  unfold uniformScores
  exact pyDict_self _ (by rw [map_pair_fst]; exact h)

theorem uniformScores_fst (cats : List String) (h : cats.Nodup) :
    (uniformScores cats).map Prod.fst = cats := by
  rw [uniformScores_eq cats h, map_pair_fst]

theorem scoreList_fst (raw : List (String × JVal)) :
    ∀ (cats : List String) (kvs : List (String × ℚ)),
      scoreList raw cats = .ok kvs → kvs.map Prod.fst = cats := by
  intro cats
  induction cats with
  | nil =>
    intro kvs h
    simp only [scoreList] at h
    cases h
    rfl
  | cons c cs ih =>
    intro kvs h
    rw [scoreList] at h
    cases h1 : scoreOne raw c with
    | error e => rw [h1] at h; cases h
    | ok q =>
      rw [h1] at h
      cases h2 : scoreList raw cs with
      | error e => rw [h2] at h; cases h
      | ok rest =>
        rw [h2] at h
        cases h
        simpa using ih rest h2

theorem pyPrimary_mem (v : JVal) (cats : List String) :
    pyPrimary v cats ∈ cats ∨ pyPrimary v cats = "other" := by
  cases v
  case str s =>
    rw [pyPrimary]
    by_cases h : s ∈ cats
    · rw [if_pos h]; exact Or.inl h
    · rw [if_neg h]; exact Or.inr rfl
  all_goals exact Or.inr rfl

/-- Everything `normItem` guarantees about a kept item's result. -/
def ResultInv (cats : List String) (r : CResult) : Prop :=
  (r.primary_category ∈ cats ∨ r.primary_category = "other") ∧
  (cats.Nodup →
    r.scores.map Prod.fst = cats ∧ (sumVals r.scores = 0 → r.scores = uniformScores cats))

theorem normItem_ok (cats : List String) (mid : Int) (kvs : List (String × JVal))
    (r : CResult) (h : normItem cats mid kvs = .ok r) :
    r.message_id = mid ∧ ResultInv cats r := by
  rw [normItem] at h
  split at h
  · exact Except.noConfusion h
  · split at h
    · exact Except.noConfusion h
    · cases h
      rename_i x1 raw hraw x2 ks hks
      refine ⟨rfl, pyPrimary_mem _ _, ?_⟩
      intro hnd
      by_cases hz : sumVals (pyDict ks) = 0
      · simp only [if_pos hz]
        exact ⟨uniformScores_fst cats hnd, fun _ => trivial⟩
      · simp only [if_neg hz]
        have hfst : ks.map Prod.fst = cats := scoreList_fst raw cats ks hks
        have hdict : pyDict ks = ks := pyDict_self ks (hfst ▸ hnd)
        rw [hdict] at hz ⊢
        exact ⟨hfst, fun hc => absurd hc hz⟩

theorem stepItem_ok_cases (cats : List String) (eids : List Int)
    (acc acc2 : List (Int × CResult)) (it : JVal)
    (h : stepItem cats eids acc it = .ok acc2) :
    acc2 = acc ∨ ∃ mid r kvs, normItem cats mid kvs = .ok r ∧ acc2 = acc ++ [(mid, r)] := by
  cases it <;> simp only [stepItem] at h
  case obj kvs =>
    split at h
    · cases h; exact Or.inl rfl
    · split at h
      · split at h
        · exact Except.noConfusion h
        · cases h
          rename_i x1 mid hpy hcond x2 r hnorm
          exact Or.inr ⟨mid, r, kvs, hnorm, rfl⟩
      · cases h; exact Or.inl rfl
  all_goals (cases h; exact Or.inl rfl)

theorem buildById_inv (cats : List String) (eids : List Int)
    (P : List (Int × CResult) → Prop)
    (hstep : ∀ acc mid r kvs, P acc → normItem cats mid kvs = .ok r → P (acc ++ [(mid, r)])) :
    ∀ (l : List JVal) (acc b : List (Int × CResult)),
      P acc → buildById cats eids l acc = .ok b → P b := by
  intro l
  induction l with
  | nil =>
    intro acc b hP h
    rw [buildById] at h
    cases h
    exact hP
  | cons it rest ih =>
    intro acc b hP h
    rw [buildById] at h
    cases h1 : stepItem cats eids acc it with
    | error e => rw [h1] at h; cases h
    | ok acc2 =>
      rw [h1] at h
      rcases stepItem_ok_cases cats eids acc acc2 it h1 with heq | ⟨mid, r, kvs, hn, heq⟩
      · exact ih acc2 b (heq ▸ hP) h
      · exact ih acc2 b (heq ▸ hstep acc mid r kvs hP hn) h

theorem byId_entries (cats : List String) (eids : List Int) (l : List JVal)
    (b : List (Int × CResult)) (h : buildById cats eids l [] = .ok b) :
    ∀ p ∈ b, p.2.message_id = p.1 ∧ ResultInv cats p.2 := by
  refine buildById_inv cats eids
    (fun acc => ∀ p ∈ acc, p.2.message_id = p.1 ∧ ResultInv cats p.2) ?_ l [] b (by simp) h
  intro acc mid r kvs hP hn p hp
  rcases List.mem_append.mp hp with hold | hnew
  · exact hP p hold
  · rcases List.mem_singleton.mp hnew with rfl
    obtain ⟨hm, hi⟩ := normItem_ok cats mid kvs r hn
    exact ⟨hm, hi⟩

theorem resultForId_spec (cats : List String) (b : List (Int × CResult)) (mid : Int)
    (hb : ∀ p ∈ b, p.2.message_id = p.1 ∧ ResultInv cats p.2) :
    (resultForId cats b mid).message_id = mid ∧ ResultInv cats (resultForId cats b mid) := by
  rw [resultForId]
  cases h : b.lookup mid with
  | some r =>
    have := hb (mid, r) (lookup_mem mid r b h)
    exact this
  | none =>
    refine ⟨rfl, Or.inr rfl, fun hnd => ⟨uniformScores_fst cats hnd, fun _ => rfl⟩⟩

theorem coerce_ok_elim (mo : List (String × JVal)) (cats : List String) (eids : List Int)
    (out : List CResult) (h : coerceResults (JVal.obj mo) cats eids = .ok out) :
    ∃ items b, pyIter (jGetItems mo) = .ok items ∧ buildById cats eids items [] = .ok b ∧
      out = eids.map (resultForId cats b) := by
  rw [coerceResults] at h
  split at h
  · exact Except.noConfusion h
  · split at h
    · exact Except.noConfusion h
    · cases h
      rename_i x1 items hitems x2 b hb
      exact ⟨items, b, hitems, hb, rfl⟩

theorem buildById_append (cats : List String) (eids : List Int) (l2 : List JVal) :
    ∀ (l1 : List JVal) (acc a : List (Int × CResult)),
      buildById cats eids l1 acc = .ok a →
      buildById cats eids (l1 ++ l2) acc = buildById cats eids l2 a := by
  intro l1
  induction l1 with
  | nil =>
    intro acc a h
    rw [buildById] at h
    cases h
    rfl
  | cons it rest ih =>
    intro acc a h
    rw [buildById] at h
    rw [List.cons_append, buildById]
    cases hs : stepItem cats eids acc it with
    | error e => rw [hs] at h; cases h
    | ok acc2 =>
      rw [hs] at h
      exact ih acc2 a h

theorem stepItem_skip (cats : List String) (eids : List Int)
    (b : List (Int × CResult)) (kvs : List (String × JVal)) (mid : Int)
    (hpy : pyInt (jGetD kvs "message_id") = some mid)
    (hne : b.lookup mid ≠ none) :
    stepItem cats eids b (JVal.obj kvs) = .ok b := by
  simp only [stepItem, hpy]
  rw [if_neg (fun hc => hne hc.2)]

/-! ## Claim theorems: the Coercion Engine -/

/-- C1 (counterexample): `_coerce_results` CAN raise on an input that IS a
mapping — `{"items": 0}` makes the `for it in items` loop raise
`TypeError`, refuting "it raises only when the raw response is not a
mapping at all". -/
theorem claim_C1_counterexample :
    coerceResults (JVal.obj [("items", JVal.int 0)]) ["billing"] [1] =
      .error PyErr.typeError := rfl

/-- C1 (amended): a non-mapping raw response raises `AttributeError`, and
whenever `_coerce_results` returns without raising on a mapping it returns
exactly one result per expected id, in the same order (so no omissions and
no duplicate positions).  The original claim's "raises only when the raw
response is not a mapping" is dropped: malformed `items` or score values
inside a mapping can also raise (see the counterexample). -/
theorem claim_C1_amended :
    (∀ (v : JVal) (cats : List String) (eids : List Int),
      (∀ kvs, v ≠ JVal.obj kvs) → coerceResults v cats eids = .error .attributeError) ∧
    (∀ (mo : List (String × JVal)) (cats : List String) (eids : List Int) (out : List CResult),
      coerceResults (JVal.obj mo) cats eids = .ok out →
      out.map CResult.message_id = eids) := by
  constructor
  · intro v cats eids h
    cases v
    case obj kvs => exact absurd rfl (h kvs)
    all_goals rfl
  · intro mo cats eids out h
    obtain ⟨items, b, _, hb, hout⟩ := coerce_ok_elim mo cats eids out h
    subst hout
    rw [List.map_map]
    exact List.map_id''
      (fun mid => (resultForId_spec cats b mid (byId_entries cats eids items b hb)).1) eids

theorem claim_C1_witness :
    coerceResults (JVal.int 3) ["billing"] [1] = .error PyErr.attributeError ∧
    ([CResult.mk 1 "other" [("billing", (1 : ℚ))]].map CResult.message_id = [1]) :=
  ⟨claim_C1_amended.1 (JVal.int 3) ["billing"] [1] (fun _ h => JVal.noConfusion h),
   claim_C1_amended.2 [] ["billing"] [1] [CResult.mk 1 "other" [("billing", (1 : ℚ))]]
     (by with_unfolding_all decide)⟩

/-- C2 (counterexample): the fallback label `"other"` is substituted even
when `"other"` is not a member of the supplied category set, so
`primary_category` is NOT always a member of that set. -/
theorem claim_C2_counterexample :
    coerceResults (JVal.obj [("items", JVal.arr [JVal.obj [("message_id", JVal.int 1),
        ("primary_category", JVal.str "x")]])]) ["billing"] [1] =
      .ok [CResult.mk 1 "other" [("billing", (1 : ℚ))]] ∧
    "other" ∉ (["billing"] : List String) := by
  exact ⟨by with_unfolding_all decide, by decide⟩

theorem normItem_primary (cats : List String) (mid : Int) (kvs : List (String × JVal))
    (r : CResult) (h : normItem cats mid kvs = .ok r) :
    r.primary_category =
      pyPrimary (if pyTruthy (jGetD kvs "primary_category") then jGetD kvs "primary_category"
        else JVal.str "other") cats := by
  rw [normItem] at h
  split at h
  · exact Except.noConfusion h
  · split at h
    · exact Except.noConfusion h
    · cases h
      rfl

theorem pyPrimary_other (cats : List String) : pyPrimary (JVal.str "other") cats = "other" := by
  rw [pyPrimary]
  by_cases h : "other" ∈ cats
  · rw [if_pos h]
  · rw [if_neg h]

/-- C2 (amended): for every result produced by `_coerce_results`,
`primary_category` is a member of the supplied category set OR is the
reserved fallback label `"other"` (so it is a member of the supplied set
whenever that set contains `"other"`); and a kept item whose raw
`primary_category` is absent/falsy, or is a string not among the supplied
categories, gets the fallback `"other"`. -/
theorem claim_C2_amended :
    (∀ (mo : List (String × JVal)) (cats : List String) (eids : List Int)
       (out : List CResult) (r : CResult),
       coerceResults (JVal.obj mo) cats eids = .ok out → r ∈ out →
       r.primary_category ∈ cats ∨ r.primary_category = "other") ∧
    (∀ (cats : List String) (mid : Int) (kvs : List (String × JVal)) (r : CResult),
       normItem cats mid kvs = .ok r →
       (pyTruthy (jGetD kvs "primary_category") = false → r.primary_category = "other") ∧
       (∀ s, jGetD kvs "primary_category" = JVal.str s → s ∉ cats →
         r.primary_category = "other")) := by
  constructor
  · intro mo cats eids out r h hr
    obtain ⟨items, b, _, hb, hout⟩ := coerce_ok_elim mo cats eids out h
    subst hout
    obtain ⟨mid, _, rfl⟩ := List.mem_map.mp hr
    exact (resultForId_spec cats b mid (byId_entries cats eids items b hb)).2.1
  · intro cats mid kvs r h
    have hp := normItem_primary cats mid kvs r h
    constructor
    · intro hf
      rw [hp, hf]
      simpa using pyPrimary_other cats
    · intro s hs hnot
      rw [hp, hs]
      by_cases ht : pyTruthy (JVal.str s)
      · rw [if_pos ht, pyPrimary, if_neg hnot]
      · rw [if_neg ht]
        exact pyPrimary_other cats

theorem claim_C2_witness :
    ("other" ∈ (["billing"] : List String) ∨ "other" = "other") ∧
    (CResult.mk 1 "other" [("billing", (1 : ℚ))]).primary_category = "other" :=
  ⟨claim_C2_amended.1 [] ["billing"] [1]
     [CResult.mk 1 "other" [("billing", (1 : ℚ))]]
     (CResult.mk 1 "other" [("billing", (1 : ℚ))])
     (by with_unfolding_all decide) (by with_unfolding_all decide),
   (claim_C2_amended.2 ["billing"] 1
     [("message_id", JVal.int 1), ("primary_category", JVal.str "x")]
     (CResult.mk 1 "other" [("billing", (1 : ℚ))])
     (by with_unfolding_all decide)).2 "x" rfl (by decide)⟩

/-- C3 (counterexample): a raw score value that cannot be coerced to a
real number is NOT treated as `0.0` — the `float(...)` call is outside the
`try` block, so it raises (here `float(None)` raises `TypeError`),
refuting "treated as 0.0 rather than raising". -/
theorem claim_C3_counterexample :
    coerceResults (JVal.obj [("items", JVal.arr [JVal.obj [("message_id", JVal.int 1),
        ("scores", JVal.obj [("billing", JVal.null)])]])]) ["billing"] [1] =
      .error PyErr.typeError := rfl

/-- C3 (amended): for every result, `scores` has exactly one entry per
supplied category, in the categories' order, with no extra keys; a
category absent from the raw scores defaults to `0.0`; and a vector
summing to exactly `0.0` is replaced by the uniform distribution.  The
original claim's "a raw score value that cannot be coerced is treated as
0.0 rather than raising" is dropped: such a value makes the coercion
raise (see the counterexample). -/
theorem claim_C3_amended :
    (∀ (mo : List (String × JVal)) (cats : List String) (eids : List Int)
       (out : List CResult) (r : CResult), cats.Nodup →
       coerceResults (JVal.obj mo) cats eids = .ok out → r ∈ out →
       r.scores.map Prod.fst = cats ∧
       (sumVals r.scores = 0 → r.scores = uniformScores cats)) ∧
    (∀ (raw : List (String × JVal)) (c : String),
       raw.lookup c = none → scoreOne raw c = .ok 0) := by
  constructor
  · intro mo cats eids out r hnd h hr
    obtain ⟨items, b, _, hb, hout⟩ := coerce_ok_elim mo cats eids out h
    subst hout
    obtain ⟨mid, _, rfl⟩ := List.mem_map.mp hr
    exact (resultForId_spec cats b mid (byId_entries cats eids items b hb)).2.2 hnd
  · intro raw c h
    simp only [scoreOne, h]

theorem claim_C3_witness :
    (([("billing", (1 : ℚ) / 2), ("misc", (1 : ℚ) / 2)].map Prod.fst = ["billing", "misc"] ∧
      (sumVals [("billing", (1 : ℚ) / 2), ("misc", (1 : ℚ) / 2)] = 0 →
        [("billing", (1 : ℚ) / 2), ("misc", (1 : ℚ) / 2)] =
          uniformScores ["billing", "misc"])) ∧
     scoreOne [] "billing" = .ok 0) :=
  ⟨claim_C3_amended.1 [] ["billing", "misc"] [1]
     [CResult.mk 1 "other" [("billing", (1 : ℚ) / 2), ("misc", (1 : ℚ) / 2)]]
     (CResult.mk 1 "other" [("billing", (1 : ℚ) / 2), ("misc", (1 : ℚ) / 2)])
     (by decide) (by with_unfolding_all decide) (by with_unfolding_all decide),
   claim_C3_amended.2 [] "billing" rfl⟩

/-- C4 (confirmed): when a candidate item carries an id that an earlier
candidate already claimed, the later candidate is ignored entirely: the
`by_id` accumulation and the whole of `_coerce_results` behave exactly as
if the later candidate were absent, so the first candidate in input order
determines that id's result. -/
theorem claim_C4 :
    ∀ (cats : List String) (eids : List Int) (pre post : List JVal)
      (kvs : List (String × JVal)) (mid : Int) (b : List (Int × CResult)),
      pyInt (jGetD kvs "message_id") = some mid →
      buildById cats eids pre [] = .ok b →
      b.lookup mid ≠ none →
      buildById cats eids (pre ++ JVal.obj kvs :: post) [] =
        buildById cats eids (pre ++ post) [] ∧
      coerceResults (JVal.obj [("items", JVal.arr (pre ++ JVal.obj kvs :: post))]) cats eids =
        coerceResults (JVal.obj [("items", JVal.arr (pre ++ post))]) cats eids := by
  intro cats eids pre post kvs mid b hpy hb hne
  have hskip : stepItem cats eids b (JVal.obj kvs) = .ok b :=
    stepItem_skip cats eids b kvs mid hpy hne
  have h1 : buildById cats eids (pre ++ JVal.obj kvs :: post) [] =
      buildById cats eids (pre ++ post) [] := by
    rw [buildById_append cats eids (JVal.obj kvs :: post) pre [] b hb,
        buildById_append cats eids post pre [] b hb,
        buildById, hskip]
  refine ⟨h1, ?_⟩
  simp only [coerceResults, jGetItems, List.lookup, beq_self_eq_true, pyIter]
  rw [h1]

theorem claim_C4_witness :
    buildById ["billing"] [1]
        ([JVal.obj [("message_id", JVal.int 1)]] ++
          JVal.obj [("message_id", JVal.int 1), ("primary_category", JVal.str "billing")] ::
            ([] : List JVal)) [] =
      buildById ["billing"] [1] ([JVal.obj [("message_id", JVal.int 1)]] ++ []) [] ∧
    coerceResults (JVal.obj [("items", JVal.arr
        ([JVal.obj [("message_id", JVal.int 1)]] ++
          JVal.obj [("message_id", JVal.int 1), ("primary_category", JVal.str "billing")] ::
            ([] : List JVal)))]) ["billing"] [1] =
      coerceResults (JVal.obj [("items", JVal.arr
        ([JVal.obj [("message_id", JVal.int 1)]] ++ []))]) ["billing"] [1] :=
  claim_C4 ["billing"] [1] [JVal.obj [("message_id", JVal.int 1)]] []
    [("message_id", JVal.int 1), ("primary_category", JVal.str "billing")] 1
    [(1, CResult.mk 1 "other" [("billing", (1 : ℚ))])]
    rfl (by with_unfolding_all decide) (by with_unfolding_all decide)

/-- C10 (confirmed): the output of `_coerce_results` has exactly one entry
per `expected_ids` position — its length equals `len(expected_ids)` even
when `expected_ids` contains duplicates — and positions holding equal
expected ids hold equal (repeated) results. -/
theorem claim_C10 :
    ∀ (mo : List (String × JVal)) (cats : List String) (eids : List Int) (out : List CResult),
      coerceResults (JVal.obj mo) cats eids = .ok out →
      out.length = eids.length ∧
      ∀ i j : Nat, eids[i]? = eids[j]? → out[i]? = out[j]? := by
  intro mo cats eids out h
  obtain ⟨items, b, _, _, hout⟩ := coerce_ok_elim mo cats eids out h
  subst hout
  refine ⟨List.length_map _ _, ?_⟩
  intro i j hij
  rw [List.getElem?_map, List.getElem?_map, hij]

theorem claim_C10_witness :
    ([CResult.mk 1 "other" [("billing", (1 : ℚ))],
      CResult.mk 1 "other" [("billing", (1 : ℚ))]].length = ([1, 1] : List Int).length ∧
     [CResult.mk 1 "other" [("billing", (1 : ℚ))],
      CResult.mk 1 "other" [("billing", (1 : ℚ))]][(0 : Nat)]? =
       [CResult.mk 1 "other" [("billing", (1 : ℚ))],
        CResult.mk 1 "other" [("billing", (1 : ℚ))]][(1 : Nat)]?) :=
  ⟨(claim_C10 [] ["billing"] [1, 1]
      [CResult.mk 1 "other" [("billing", (1 : ℚ))], CResult.mk 1 "other" [("billing", (1 : ℚ))]]
      (by with_unfolding_all decide)).1,
   (claim_C10 [] ["billing"] [1, 1]
      [CResult.mk 1 "other" [("billing", (1 : ℚ))], CResult.mk 1 "other" [("billing", (1 : ℚ))]]
      (by with_unfolding_all decide)).2 0 1 rfl⟩

/-! ## Model of `json.loads` (strict mode, as used by `_robust_json_parse`) -/

/-- The `{` character, written via its code point. -/
def lcurly : Char := Char.ofNat 123

/-- The `}` character, written via its code point. -/
def rcurly : Char := Char.ofNat 125

/-- JSON whitespace between tokens: space, tab, newline, carriage return
(exactly the set accepted by Python's `json` module). -/
def jsonWs (c : Char) : Bool :=
  c = ' ' ∨ c = '\t' ∨ c = '\n' ∨ c = '\r'

/-- Drop leading JSON whitespace. -/
def skipWs : List Char → List Char
  | [] => []
  | c :: cs => if jsonWs c then skipWs cs else c :: cs

/-- Hexadecimal digit value. -/
def hexVal (c : Char) : Option Nat :=
  if c.isDigit then some (c.toNat - 48)
  else if 'a' ≤ c ∧ c ≤ 'f' then some (c.toNat - 87)
  else if 'A' ≤ c ∧ c ≤ 'F' then some (c.toNat - 55)
  else none

/-- Four hex digits of a `\uXXXX` escape. -/
def parseHex4 : List Char → Option (Nat × List Char)
  | a :: b :: c :: d :: rest =>
    match hexVal a, hexVal b, hexVal c, hexVal d with
    | some x, some y, some z, some w => some (((x * 16 + y) * 16 + z) * 16 + w, rest)
    | _, _, _, _ => none
  | _ => none

/-- Single-character JSON escapes. -/
def escChar (e : Char) : Option Char :=
  if e = '"' then some '"'
  else if e = '\\' then some '\\'
  else if e = '/' then some '/'
  else if e = 'b' then some (Char.ofNat 8)
  else if e = 'f' then some (Char.ofNat 12)
  else if e = 'n' then some '\n'
  else if e = 'r' then some '\r'
  else if e = 't' then some '\t'
  else none

/-- Body of a JSON string literal, after the opening quote.  Unescaped
control characters are rejected (strict mode); surrogate pairs are
combined.  (Lone surrogates, which CPython keeps as unpaired code units,
are outside the modelled fragment since Lean `Char` cannot carry them; no
relevant input uses them.) -/
def parseJsonStr : Nat → List Char → Option (List Char × List Char)
  | 0, _ => none
  | _, [] => none
  | fuel + 1, c :: cs =>
    if c = '"' then some ([], cs)
    else if c = '\\' then
      match cs with
      | [] => none
      | e :: cs2 =>
        if e = 'u' then
          match parseHex4 cs2 with
          | none => none
          | some (n, cs3) =>
            if 0xD800 ≤ n ∧ n ≤ 0xDBFF then
              match cs3 with
              | '\\' :: 'u' :: cs4 =>
                match parseHex4 cs4 with
                | some (n2, cs5) =>
                  if 0xDC00 ≤ n2 ∧ n2 ≤ 0xDFFF then
                    (parseJsonStr fuel cs5).map (fun p =>
                      (Char.ofNat (0x10000 + (n - 0xD800) * 0x400 + (n2 - 0xDC00)) :: p.1, p.2))
                  else none
                | none => none
              | _ => none
            else if 0xDC00 ≤ n ∧ n ≤ 0xDFFF then none
            else (parseJsonStr fuel cs3).map (fun p => (Char.ofNat n :: p.1, p.2))
        else
          match escChar e with
          | none => none
          | some ch => (parseJsonStr fuel cs2).map (fun p => (ch :: p.1, p.2))
    else if c.toNat < 0x20 then none
    else (parseJsonStr fuel cs).map (fun p => (c :: p.1, p.2))

/-- JSON number: optional minus, integer part without leading zeros,
optional fraction, optional exponent.  A number with neither fraction nor
exponent parses as a Python `int`, otherwise as a `float`. -/
def parseJsonNumber (cs : List Char) : Option (JVal × List Char) :=
  let signed := match cs with
    | '-' :: r => (true, r)
    | _ => (false, cs)
  match signed.2.span (fun c => c.isDigit) with
  | (ds, rest1) =>
    if ds.isEmpty then none
    else if 1 < ds.length ∧ ds.headD '0' = '0' then none
    else
      let ip : Nat := (parseDigits ds 0).getD 0
      let fraced :=
        match rest1 with
        | '.' :: r2 =>
          match r2.span (fun c : Char => c.isDigit) with
          | (fs, rest2) =>
            if fs.isEmpty then none
            else some ((parseDigits fs 0).getD 0, fs.length, rest2)
        | _ => some (0, 0, rest1)
      match fraced with
      | none => none
      | some (fnum, fdigits, rest2) =>
        let exped :=
          match rest2 with
          | 'e' :: r3 => some r3
          | 'E' :: r3 => some r3
          | _ => none
        let expParsed :=
          match exped with
          | none => some (0, true, rest2, false)
          | some r3 =>
            let esigned := match r3 with
              | '-' :: r4 => (false, r4)
              | '+' :: r4 => (true, r4)
              | _ => (true, r3)
            match esigned.2.span (fun c : Char => c.isDigit) with
            | (es, rest3) =>
              if es.isEmpty then none
              else some ((parseDigits es 0).getD 0, esigned.1, rest3, true)
        match expParsed with
        | none => none
        | some (e, epos, restF, isFloat) =>
          if fdigits = 0 ∧ !isFloat then
            some (JVal.int (if signed.1 then -(ip : Int) else (ip : Int)), restF)
          else
            let mag : ℚ := ((ip : ℚ) + (fnum : ℚ) / ((10 : ℚ) ^ fdigits)) *
              (if epos then (10 : ℚ) ^ e else 1 / ((10 : ℚ) ^ e))
            some (JVal.num (if signed.1 then -mag else mag), restF)

/-- Python dicts built by the JSON object parser: a repeated key replaces
the value at the key's first position (later assignment wins). -/
def objInsert : List (String × JVal) → String → JVal → List (String × JVal)
  | [], k, v => [(k, v)]
  | (k', v') :: rest, k, v =>
    if k' = k then (k', v) :: rest else (k', v') :: objInsert rest k v

/-- Parsing mode of the single-pass recursive-descent JSON parser: a
value, the inside of an object or array just after its opener, or the
member/element loop with its accumulator. -/
inductive PMode where
  | value
  | objRest
  | members (acc : List (String × JVal))
  | arrRest
  | elems (acc : List JVal)

/-- Recursive core of the JSON parser (fuel-indexed so that every
recursive call is structural; the top-level entry supplies ample fuel). -/
def parseCore : Nat → PMode → List Char → Option (JVal × List Char)
  | 0, _, _ => none
  | fuel + 1, PMode.value, cs =>
    match skipWs cs with
    | [] => none
    | c :: rest =>
      if c = lcurly then parseCore fuel PMode.objRest rest
      else if c = '[' then parseCore fuel PMode.arrRest rest
      else if c = '"' then
        (parseJsonStr (rest.length + 1) rest).map
          (fun p => (JVal.str (String.mk p.1), p.2))
      else if c = 't' then
        match rest with
        | 'r' :: 'u' :: 'e' :: r => some (JVal.bool true, r)
        | _ => none
      else if c = 'f' then
        match rest with
        | 'a' :: 'l' :: 's' :: 'e' :: r => some (JVal.bool false, r)
        | _ => none
      else if c = 'n' then
        match rest with
        | 'u' :: 'l' :: 'l' :: r => some (JVal.null, r)
        | _ => none
      else parseJsonNumber (c :: rest)
  | fuel + 1, PMode.objRest, cs =>
    match skipWs cs with
    | [] => none
    | c :: rest =>
      if c = rcurly then some (JVal.obj [], rest)
      else parseCore fuel (PMode.members []) (c :: rest)
  | fuel + 1, PMode.members acc, cs =>
    match skipWs cs with
    | [] => none
    | c :: rest =>
      if c = '"' then
        match parseJsonStr (rest.length + 1) rest with
        | none => none
        | some (key, cs2) =>
          match skipWs cs2 with
          | ':' :: cs3 =>
            match parseCore fuel PMode.value cs3 with
            | none => none
            | some (v, cs4) =>
              let acc2 := objInsert acc (String.mk key) v
              match skipWs cs4 with
              | ',' :: cs5 => parseCore fuel (PMode.members acc2) cs5
              | c2 :: cs5 =>
                if c2 = rcurly then some (JVal.obj acc2, cs5) else none
              | [] => none
          | _ => none
      else none
  | fuel + 1, PMode.arrRest, cs =>
    match skipWs cs with
    | [] => none
    | c :: rest =>
      if c = ']' then some (JVal.arr [], rest)
      else parseCore fuel (PMode.elems []) (c :: rest)
  | fuel + 1, PMode.elems acc, cs =>
    match parseCore fuel PMode.value cs with
    | none => none
    | some (v, cs2) =>
      match skipWs cs2 with
      | ',' :: cs3 => parseCore fuel (PMode.elems (acc ++ [v])) cs3
      | ']' :: cs3 => some (JVal.arr (acc ++ [v]), cs3)
      | _ => none

/-- Shallow embedding of `json.loads(s)`: parse one value, then require
only trailing whitespace (otherwise Python raises "Extra data"). -/
def jsonLoads (s : String) : Except PyErr JVal :=
  match parseCore (3 * s.length + 4) PMode.value s.data with
  | none => .error .jsonDecodeError
  | some (v, rest) =>
    match skipWs rest with
    | [] => .ok v
    | _ => .error .jsonDecodeError

/-! ## `_robust_json_parse` and `classify_text` (src/openai_client.py) -/

/-- Python `str.strip()` whitespace (ASCII subset; exotic unicode spaces
are outside the modelled fragment). -/
def pyWsChar (c : Char) : Bool :=
  c = ' ' ∨ c = '\t' ∨ c = '\n' ∨ c = '\r' ∨ c = Char.ofNat 11 ∨ c = Char.ofNat 12

/-- `content.strip()`. -/
def pyStrip (cs : List Char) : List Char :=
  ((cs.dropWhile pyWsChar).reverse.dropWhile pyWsChar).reverse

/-- Python `str.replace(old, new)` for a two-character pattern `[a, b]`
replaced by the single character `r`: all non-overlapping occurrences,
scanning left to right without re-scanning replaced output. -/
def replace2 (a b r : Char) : List Char → List Char
  | [] => []
  | [c] => [c]
  | c1 :: c2 :: rest =>
    if c1 = a ∧ c2 = b then r :: replace2 a b r rest
    else c1 :: replace2 a b r (c2 :: rest)

/-- One pass of `s.replace(",]", "]").replace(",\x7d", "\x7d")`. -/
def repairPass (cs : List Char) : List Char :=
  replace2 ',' rcurly rcurly (replace2 ',' ']' ']' cs)

/-- Shallow embedding of `_robust_json_parse(content)`
(`src/openai_client.py` lines 38–81): try `json.loads`; on failure strip,
run three separator-stripping passes over the RAW text (string-literal
interiors included), count aggregate markers over the raw text (quotes
ignored, as the source comments admit), append missing closers, and parse
again. -/
def robustJsonParse (content : String) : Except PyErr JVal :=
  match jsonLoads content with
  | .ok v => .ok v
  | .error _ =>
    let s0 := pyStrip content.data
    let s1 := repairPass (repairPass (repairPass s0))
    let ocur := s1.count lcurly
    let ccur := s1.count rcurly
    let osq := s1.count '['
    let csq := s1.count ']'
    let s2 := if csq < osq then s1 ++ List.replicate (osq - csq) ']' else s1
    let s3 := if ccur < ocur then s2 ++ List.replicate (ocur - ccur) rcurly else s2
    jsonLoads (String.mk s3)

/-- `_repair_json_with_model` as seen by the parse pipeline: the repair
call's network response text is parsed with the same `_robust_json_parse`
(line 146); the network transport itself is abstracted into the response
text. -/
def repairJsonWithModel (repairResponse : String) : Except PyErr JVal :=
  robustJsonParse repairResponse

/-- Control flow of `classify_text` (lines 192–219) with the model calls
abstracted by the two response texts: parse the first response; on parse
failure make exactly one repair call and parse its output the same way;
a second failure propagates.  Returns the result together with the number
of model-assisted repair calls issued. -/
def classifyTextTrace (firstResponse repairResponse : String) :
    Except PyErr JVal × Nat :=
  match robustJsonParse firstResponse with
  | .ok v => (.ok v, 0)
  | .error _ =>
    match repairJsonWithModel repairResponse with
    | .ok v => (.ok v, 1)
    | .error e => (.error e, 1)

/-- C5 (counterexample): on the non-parsing input `{"a": "x,]y"` (an
unterminated object) the repair pass rewrites the INTERIOR of the string
literal `"x,]y"` to `"x]y"` before closing the brace, so the repair
alters already-valid content, refuting "it never alters already-valid
content, such as the interior of string literals". -/
theorem claim_C5_counterexample :
    jsonLoads "\x7b\"a\": \"x,]y\"" = .error PyErr.jsonDecodeError ∧
    robustJsonParse "\x7b\"a\": \"x,]y\"" = .ok (JVal.obj [("a", JVal.str "x]y")]) ∧
    "x]y" ≠ "x,]y" :=
  ⟨rfl, rfl, by decide⟩

/-- C5 (amended): `_robust_json_parse` returns the ordinary JSON parse
whenever the input already parses; otherwise it strips dangling trailing
separators and appends missing closing markers, but these textual repairs
are applied to the raw text INCLUDING string-literal interiors, so
already-valid content can be altered (see the counterexample). -/
theorem claim_C5_amended :
    ∀ (s : String) (v : JVal), jsonLoads s = .ok v → robustJsonParse s = .ok v := by
  intro s v h
  simp only [robustJsonParse, h]

theorem claim_C5_witness :
    robustJsonParse "\x7b\x7d" = Except.ok (JVal.obj []) :=
  claim_C5_amended "\x7b\x7d" (JVal.obj []) rfl

/-- C6 (confirmed): when the first response fails local repair,
`classify_text` issues exactly one model-assisted repair call, parses its
output with the same local repair step, and a second parse failure
propagates to the caller with no further repair call; when the first
response parses, no repair call is made. -/
theorem claim_C6 :
    ∀ firstResponse repairResponse : String,
      (∀ e, robustJsonParse firstResponse = .error e →
        (classifyTextTrace firstResponse repairResponse).2 = 1 ∧
        (classifyTextTrace firstResponse repairResponse).1 =
          repairJsonWithModel repairResponse) ∧
      (∀ v, robustJsonParse firstResponse = .ok v →
        (classifyTextTrace firstResponse repairResponse).2 = 0 ∧
        (classifyTextTrace firstResponse repairResponse).1 = .ok v) := by
  intro f r
  constructor
  · intro e he
    simp only [classifyTextTrace, he]
    cases hr : repairJsonWithModel r <;> simp [hr]
  · intro v hv
    simp [classifyTextTrace, hv]

theorem claim_C6_witness :
    (classifyTextTrace "x" "\x7b\x7d").2 = 1 ∧
    (classifyTextTrace "x" "\x7b\x7d").1 = repairJsonWithModel "\x7b\x7d" ∧
    (classifyTextTrace "\x7b\x7d" "x").2 = 0 ∧
    (classifyTextTrace "\x7b\x7d" "x").1 = .ok (JVal.obj []) :=
  ⟨((claim_C6 "x" "\x7b\x7d").1 PyErr.jsonDecodeError rfl).1,
   ((claim_C6 "x" "\x7b\x7d").1 PyErr.jsonDecodeError rfl).2,
   ((claim_C6 "\x7b\x7d" "x").2 (JVal.obj []) rfl).1,
   ((claim_C6 "\x7b\x7d" "x").2 (JVal.obj []) rfl).2⟩

/-! ## Session scheduler (src/db.py) and pipeline limit/watermark
(src/pipeline.py) -/

/-- Row of the `messages` table as used by `fetch_sessions_to_process`
(only `id`, `session_id` and `timestamp` enter that query; timestamps are
modelled as integers, a total order being all the query needs). -/
structure Msg where
  id : Int
  session_id : String
  timestamp : Int
deriving DecidableEq, Repr

/-- Row of `session_classification` as used by the scheduler (only the
primary key `session_id` and the watermark `processed_upto` enter the
dueness decision). -/
structure SessRec where
  session_id : String
  processed_upto : Int
deriving DecidableEq, Repr

/-- One output row of `fetch_sessions_to_process`:
`{session_id, max_ts, message_count}`. -/
structure DueRow where
  session_id : String
  max_ts : Int
  message_count : Nat
deriving DecidableEq, Repr

/-- The optional `WHERE m.timestamp >= since` restriction applied to the
aggregation subquery. -/
def filterSince (since : Option Int) (msgs : List Msg) : List Msg :=
  match since with
  | none => msgs
  | some s => msgs.filter (fun m => s ≤ m.timestamp)

/-- Timestamps of one session's messages within a message list. -/
def sessionTs (msgs : List Msg) (sid : String) : List Int :=
  (msgs.filter (fun m => m.session_id = sid)).map Msg.timestamp

/-- `max(...)` over a SQL group (the group is non-empty whenever it
exists). -/
def listMax : List Int → Option Int
  | [] => none
  | t :: ts => some (ts.foldl max t)

/-- The `GROUP BY m.session_id` aggregation row for one session id:
`none` when the session has no (since-filtered) messages and therefore no
group. -/
def aggRow (msgs : List Msg) (sid : String) : Option DueRow :=
  match listMax (sessionTs msgs sid) with
  | none => none
  | some mt => some ⟨sid, mt, (sessionTs msgs sid).length⟩

/-- The `WHERE` clause of the outer join: due when the session has no
`session_classification` row (both `IS NULL` disjuncts) or when the
aggregated `max_ts` exceeds the recorded `processed_upto`. -/
def isDue (recs : List SessRec) (row : DueRow) : Bool :=
  match recs.find? (fun r => r.session_id = row.session_id) with
  | none => true
  | some r => r.processed_upto < row.max_ts

/-- Distinct session ids, in first-appearance order (the aggregation
groups). -/
def sessionIds (msgs : List Msg) : List String :=
  (msgs.map Msg.session_id).dedup

/-- Ordering used by `ORDER BY subq.max_ts ASC`. -/
def dueRowLe (a b : DueRow) : Prop := a.max_ts ≤ b.max_ts

instance : DecidableRel dueRowLe := fun a b => inferInstanceAs (Decidable (a.max_ts ≤ b.max_ts))

instance : IsTotal DueRow dueRowLe := ⟨fun a b => le_total a.max_ts b.max_ts⟩

instance : IsTrans DueRow dueRowLe := ⟨fun _ _ _ h1 h2 => le_trans h1 h2⟩

/-- Shallow embedding of `fetch_sessions_to_process(engine, since)`
(`src/db.py` lines 101–139): aggregate the since-filtered messages per
session, keep the due sessions, order ascending by `max_ts`.  `session_id`
is the primary key of `session_classification`, so the left join is a
per-session record lookup. -/
def fetchSessionsToProcess (msgs : List Msg) (recs : List SessRec)
    (since : Option Int) : List DueRow :=
  let fm := filterSince since msgs
  let rows := (sessionIds fm).filterMap (aggRow fm)
  List.insertionSort dueRowLe (rows.filter (isDue recs))

/-- Conflict-resolving upsert of `upsert_session_classification`
(`src/db.py` lines 207–253): `ON CONFLICT (session_id) DO UPDATE` replaces
the existing row's fields, otherwise the row is inserted. -/
def upsertSessionRec (recs : List SessRec) (sid : String) (pu : Int) : List SessRec :=
  if recs.any (fun r => r.session_id = sid) then
    recs.map (fun r => if r.session_id = sid then ⟨sid, pu⟩ else r)
  else recs ++ [⟨sid, pu⟩]

/-- The session-level persistence step of `run_pipeline` (lines 148–157):
the upsert is called with `processed_upto = max_ts`, the scheduler row's
aggregated maximum timestamp. -/
def persistSessionResult (recs : List SessRec) (row : DueRow) : List SessRec :=
  upsertSessionRec recs row.session_id row.max_ts

/-- Python list slicing `sessions[:limit]` for an integer `limit`
(negative values count from the end, as in Python). -/
def pySliceTo (l : Int) (xs : List DueRow) : List DueRow :=
  xs.take (if 0 ≤ l then l else (xs.length : Int) + l).toNat

/-- `if limit: sessions = sessions[:limit]` (`src/pipeline.py` lines
114–116): `None` and the falsy `0` leave the list untouched. -/
def applyLimit (limit : Option Int) (xs : List DueRow) : List DueRow :=
  match limit with
  | none => xs
  | some l => if l ≠ 0 then pySliceTo l xs else xs

/-- The due-session list the pipeline iterates after the limit step. -/
def pipelineSessions (msgs : List Msg) (recs : List SessRec)
    (since : Option Int) (limit : Option Int) : List DueRow :=
  applyLimit limit (fetchSessionsToProcess msgs recs since)

/-! ## Helper lemmas about the scheduler -/

theorem foldl_max_mem : ∀ (ts : List Int) (t : Int), ts.foldl max t ∈ t :: ts := by
  intro ts
  induction ts with
  | nil => intro t; simp
  | cons a as ih =>
    intro t
    rw [List.foldl_cons]
    rcases List.mem_cons.mp (ih (max t a)) with h | h
    · rcases max_choice t a with hm | hm
      · rw [h, hm]; exact List.mem_cons_self _ _
      · rw [h, hm]; exact List.mem_cons_of_mem _ (List.mem_cons_self _ _)
    · exact List.mem_cons_of_mem _ (List.mem_cons_of_mem _ h)

theorem le_foldl_max : ∀ (ts : List Int) (t x : Int), x = t ∨ x ∈ ts → x ≤ ts.foldl max t := by
  intro ts
  induction ts with
  | nil =>
    intro t x h
    rcases h with h | h
    · simp [h]
    · simp at h
  | cons a as ih =>
    intro t x h
    rw [List.foldl_cons]
    rcases h with h | h
    · exact le_trans (h ▸ le_max_left t a) (ih (max t a) _ (Or.inl rfl))
    · rcases List.mem_cons.mp h with h2 | h2
      · exact le_trans (h2 ▸ le_max_right t a) (ih (max t a) _ (Or.inl rfl))
      · exact ih (max t a) x (Or.inr h2)

theorem listMax_mem {l : List Int} {m : Int} (h : listMax l = some m) : m ∈ l := by
  cases l with
  | nil => cases h
  | cons t ts =>
    rw [listMax] at h
    cases h
    exact foldl_max_mem ts t

theorem listMax_ub {l : List Int} {m : Int} (h : listMax l = some m) :
    ∀ x ∈ l, x ≤ m := by
  intro x hx
  cases l with
  | nil => cases h
  | cons t ts =>
    rw [listMax] at h
    cases h
    rcases List.mem_cons.mp hx with h2 | h2
    · exact le_foldl_max ts t x (Or.inl h2)
    · exact le_foldl_max ts t x (Or.inr h2)

theorem listMax_ne_nil {l : List Int} (h : l ≠ []) : ∃ m, listMax l = some m := by
  cases l with
  | nil => exact absurd rfl h
  | cons t ts => exact ⟨ts.foldl max t, rfl⟩

theorem mem_sessionTs {msgs : List Msg} {sid : String} {x : Int} :
    x ∈ sessionTs msgs sid ↔ ∃ m ∈ msgs, m.session_id = sid ∧ m.timestamp = x := by
  simp only [sessionTs, List.mem_map, List.mem_filter, decide_eq_true_eq]
  constructor
  · rintro ⟨m, ⟨hm, hsid⟩, hts⟩
    exact ⟨m, hm, hsid, hts⟩
  · rintro ⟨m, hm, hsid, hts⟩
    exact ⟨m, ⟨hm, hsid⟩, hts⟩

theorem mem_sessionIds {msgs : List Msg} {sid : String} :
    sid ∈ sessionIds msgs ↔ sessionTs msgs sid ≠ [] := by
  rw [sessionIds, List.mem_dedup, List.mem_map]
  rw [sessionTs, Ne, List.map_eq_nil_iff, List.filter_eq_nil_iff]
  push_neg
  simp only [decide_eq_true_eq]

theorem aggRow_some {msgs : List Msg} {sid : String} {row : DueRow}
    (h : aggRow msgs sid = some row) :
    row.session_id = sid ∧ listMax (sessionTs msgs sid) = some row.max_ts ∧
      row.message_count = (sessionTs msgs sid).length := by
  rw [aggRow] at h
  split at h
  · cases h
  · cases h
    rename_i mt hmt
    exact ⟨rfl, hmt, rfl⟩

theorem aggRow_of {msgs : List Msg} {sid : String} {mt : Int}
    (h : listMax (sessionTs msgs sid) = some mt) :
    aggRow msgs sid = some ⟨sid, mt, (sessionTs msgs sid).length⟩ := by
  rw [aggRow]
  split
  · rename_i hn
    rw [hn] at h
    cases h
  · rename_i mt2 hmt
    rw [hmt] at h
    cases h
    rfl

theorem mem_fetch_iff {msgs : List Msg} {recs : List SessRec} {since : Option Int}
    {row : DueRow} :
    row ∈ fetchSessionsToProcess msgs recs since ↔
      (sessionTs (filterSince since msgs) row.session_id ≠ [] ∧
       listMax (sessionTs (filterSince since msgs) row.session_id) = some row.max_ts ∧
       row.message_count = (sessionTs (filterSince since msgs) row.session_id).length ∧
       isDue recs row = true) := by
  rw [fetchSessionsToProcess]
  rw [List.mem_insertionSort, List.mem_filter, List.mem_filterMap]
  constructor
  · rintro ⟨⟨sid, hsid, hagg⟩, hdue⟩
    obtain ⟨hrs, hmax, hcount⟩ := aggRow_some hagg
    subst hrs
    exact ⟨mem_sessionIds.mp hsid, hmax, hcount, hdue⟩
  · rintro ⟨hne, hmax, hcount, hdue⟩
    refine ⟨⟨row.session_id, mem_sessionIds.mpr hne, ?_⟩, hdue⟩
    rw [aggRow_of hmax]
    cases row with
    | mk sid mt cnt =>
      simp only at hcount
      rw [hcount]

theorem isDue_iff {recs : List SessRec} {row : DueRow} :
    isDue recs row = true ↔
      (recs.find? (fun r => r.session_id = row.session_id) = none ∨
       ∃ r, recs.find? (fun r => r.session_id = row.session_id) = some r ∧
         r.processed_upto < row.max_ts) := by
  rw [isDue]
  cases h : recs.find? (fun r => r.session_id = row.session_id) with
  | none => simp
  | some r => simp [h]

theorem session_ts_le_max {msgs : List Msg} {recs : List SessRec} {since : Option Int}
    {row : DueRow} (h : row ∈ fetchSessionsToProcess msgs recs since) :
    ∀ m ∈ msgs, m.session_id = row.session_id → m.timestamp ≤ row.max_ts := by
  obtain ⟨hne, hmax, _, _⟩ := mem_fetch_iff.mp h
  intro m hm hsid
  cases since with
  | none =>
    exact listMax_ub hmax _ (mem_sessionTs.mpr ⟨m, hm, hsid, rfl⟩)
  | some s =>
    by_cases hts : s ≤ m.timestamp
    · refine listMax_ub hmax _ (mem_sessionTs.mpr ⟨m, ?_, hsid, rfl⟩)
      simp only [filterSince, List.mem_filter, decide_eq_true_eq]
      exact ⟨hm, hts⟩
    · have hmem := listMax_mem hmax
      obtain ⟨m2, hm2, _, hts2⟩ := mem_sessionTs.mp hmem
      have hs : s ≤ row.max_ts := by
        simp only [filterSince, List.mem_filter, decide_eq_true_eq] at hm2
        rw [← hts2]
        exact hm2.2
      exact le_trans (le_of_lt (lt_of_not_le hts)) hs

theorem find?_append_none {p : SessRec → Bool} {l1 l2 : List SessRec}
    (h : ∀ r ∈ l1, p r = false) : (l1 ++ l2).find? p = l2.find? p := by
  induction l1 with
  | nil => rfl
  | cons r rest ih =>
    rw [List.cons_append, List.find?]
    rw [h r (List.mem_cons_self _ _)]
    exact ih (fun x hx => h x (List.mem_cons_of_mem _ hx))

theorem find?_upsert (recs : List SessRec) (sid : String) (pu : Int) :
    (upsertSessionRec recs sid pu).find? (fun r => r.session_id = sid) =
      some ⟨sid, pu⟩ := by
  rw [upsertSessionRec]
  by_cases hany : recs.any (fun r => r.session_id = sid)
  · rw [if_pos hany]
    induction recs with
    | nil => cases hany
    | cons r0 rest ih =>
      rw [List.map_cons, List.find?]
      by_cases h0 : r0.session_id = sid
      · rw [if_pos h0]
        simp
      · rw [if_neg h0]
        have : (decide (r0.session_id = sid)) = false := decide_eq_false h0
        rw [this]
        refine ih ?_
        rcases List.any_eq_true.mp hany with ⟨x, hx, hpx⟩
        rcases List.mem_cons.mp hx with rfl | hx2
        · exact absurd (of_decide_eq_true hpx) h0
        · exact List.any_eq_true.mpr ⟨x, hx2, hpx⟩
  · rw [if_neg hany]
    rw [find?_append_none]
    · simp [List.find?]
    · intro r hr
      rcases List.any_eq_false.mp (Bool.of_not_eq_true hany) with hall
      exact Bool.eq_false_iff.mpr (hall r hr)

theorem mem_of_filterSince {since : Option Int} {l : List Msg} {m : Msg}
    (h : m ∈ filterSince since l) : m ∈ l := by
  cases since with
  | none => exact h
  | some s => exact (List.mem_filter.mp h).1

/-- C7 (confirmed): `fetch_sessions_to_process` is sorted ascending by
`max_ts`, and a row is returned exactly when its session has at least one
message in the `since` window, `max_ts`/`message_count` are the maximum
timestamp and count aggregated over exactly that window, and the session
either has no `session_classification` record or its windowed `max_ts`
exceeds the recorded `processed_upto`. -/
theorem claim_C7 :
    ∀ (msgs : List Msg) (recs : List SessRec) (since : Option Int),
      List.Sorted dueRowLe (fetchSessionsToProcess msgs recs since) ∧
      ∀ row : DueRow,
        row ∈ fetchSessionsToProcess msgs recs since ↔
          (sessionTs (filterSince since msgs) row.session_id ≠ [] ∧
           listMax (sessionTs (filterSince since msgs) row.session_id) = some row.max_ts ∧
           row.message_count = (sessionTs (filterSince since msgs) row.session_id).length ∧
           (recs.find? (fun r => r.session_id = row.session_id) = none ∨
            ∃ r, recs.find? (fun r => r.session_id = row.session_id) = some r ∧
              r.processed_upto < row.max_ts)) := by
  intro msgs recs since
  refine ⟨List.sorted_insertionSort dueRowLe _, fun row => ?_⟩
  rw [mem_fetch_iff, isDue_iff]

/-- C8 (counterexample): Python's `if limit:` treats a supplied `limit` of
`0` as falsy, so NO truncation happens: the run processes every due
session instead of the first zero of them. -/
theorem claim_C8_counterexample :
    pipelineSessions [⟨1, "s", 5⟩] [] none (some 0) = [⟨"s", 5, 1⟩] ∧
    ([⟨"s", 5, 1⟩] : List DueRow) ≠ [] := by
  exact ⟨by with_unfolding_all decide, by decide⟩

/-- C8 (amended): for every supplied POSITIVE integer limit, the pipeline
truncates the ordered due-session list to exactly its first `limit`
entries after ordering, so at most `limit` sessions are processed; a
supplied limit of `0` is falsy in Python and disables truncation
entirely (see the counterexample). -/
theorem claim_C8_amended :
    ∀ (msgs : List Msg) (recs : List SessRec) (since : Option Int) (l : Int), 0 < l →
      pipelineSessions msgs recs since (some l) =
        (fetchSessionsToProcess msgs recs since).take l.toNat ∧
      (pipelineSessions msgs recs since (some l)).length ≤ l.toNat := by
  intro msgs recs since l hl
  have hne : l ≠ 0 := by omega
  have h1 : pipelineSessions msgs recs since (some l) =
      (fetchSessionsToProcess msgs recs since).take l.toNat := by
    simp only [pipelineSessions, applyLimit]
    rw [if_pos hne, pySliceTo, if_pos (le_of_lt hl)]
  refine ⟨h1, ?_⟩
  rw [h1, List.length_take]
  exact min_le_left _ _

theorem claim_C8_witness :
    pipelineSessions [⟨1, "s", 5⟩] [] none (some 2) =
      (fetchSessionsToProcess [⟨1, "s", 5⟩] [] none).take (Int.toNat 2) ∧
    (pipelineSessions [⟨1, "s", 5⟩] [] none (some 2)).length ≤ Int.toNat 2 :=
  claim_C8_amended [⟨1, "s", 5⟩] [] none 2 (by decide)

/-- C9 (confirmed): after a successful session-level classification the
persisted `processed_upto` equals the scheduler row's `max_ts` (the
session's aggregated maximum timestamp at classification time), and on
every subsequent scheduling pass — for any `since` bound — the session is
excluded unless a message with a timestamp strictly later than
`processed_upto` has been added for it. -/
theorem claim_C9 :
    ∀ (msgs : List Msg) (recs : List SessRec) (since : Option Int) (row : DueRow)
      (newMsgs : List Msg) (since2 : Option Int),
      row ∈ fetchSessionsToProcess msgs recs since →
      (∀ m ∈ newMsgs, m.session_id = row.session_id → m.timestamp ≤ row.max_ts) →
      ((persistSessionResult recs row).find?
          (fun r => r.session_id = row.session_id) = some ⟨row.session_id, row.max_ts⟩ ∧
       ∀ row2 ∈ fetchSessionsToProcess (msgs ++ newMsgs)
           (persistSessionResult recs row) since2,
         row2.session_id ≠ row.session_id) := by
  intro msgs recs since row newMsgs since2 hmem hnew
  have hfind := find?_upsert recs row.session_id row.max_ts
  refine ⟨hfind, ?_⟩
  intro row2 h2 heq
  obtain ⟨hne2, hmax2, _, hdue2⟩ := mem_fetch_iff.mp h2
  rw [heq] at hmax2
  rw [isDue, heq, persistSessionResult, hfind] at hdue2
  simp only [decide_eq_true_eq] at hdue2
  obtain ⟨m, hm, hsid, hts⟩ := mem_sessionTs.mp (listMax_mem hmax2)
  rcases List.mem_append.mp (mem_of_filterSince hm) with hmm | hmn
  · have hle := session_ts_le_max hmem m hmm hsid
    rw [hts] at hle
    omega
  · have hle := hnew m hmn hsid
    rw [hts] at hle
    omega

theorem claim_C9_witness :
    (persistSessionResult [] ⟨"s", 5, 1⟩).find? (fun r => r.session_id = "s") =
      some ⟨"s", 5⟩ :=
  (claim_C9 [⟨1, "s", 5⟩] [] none ⟨"s", 5, 1⟩ [⟨2, "s", 4⟩] none
    (by with_unfolding_all decide) (by decide)).1
